import Mathlib

/-!
Verification of the contour ingress-translator core.

The Go sources under verification are the translator dispatch
(`translator.go`), the listener recomputation (`listener.go`) and the
package tests.  Pure functions (`hashname`, `truncate`, `servicename`,
`recomputeTLSListener0`, the event handlers of `Translator`) are embedded
directly from the source.  The cluster and virtual-host recomputation
bodies are not part of the provided sources (only their tests are); those
definitions are modelled from the specification and carry a doc comment
saying so.  Go strings are modelled as Lean `String`s; all inputs of
interest are ASCII, so Go's byte length coincides with `String.length`.
Go `map` iteration is modelled by list order; the properties proved do not
depend on iteration order.
-/

namespace contour

/-- Natural-number byte/word mask arithmetic is used throughout: machine
words are `Nat` reduced `% 2 ^ 32` where overflow matters. -/
def mask32 : Nat := 4294967296

/-- Takes the first `n` characters of a string, modelling the Go slice
`s[:n]` on ASCII strings. -/
def strTake (s : String) (n : Nat) : String := String.mk (s.data.take n)

/-- Bytes of an ASCII string, modelling Go's `[]byte(s)`. -/
def strBytes (s : String) : List Nat := s.data.map Char.toNat

/-! ## SHA-256 (model of Go `crypto/sha256.Sum256`)

A direct embedding of FIPS 180-4 SHA-256 over byte lists, used by
`hashname`.  Words are `Nat`s kept below `2 ^ 32`. -/

/-- Right rotation of a 32-bit word. -/
def rotr (n x : Nat) : Nat := (x >>> n) ||| ((x % (2 ^ n)) <<< (32 - n))

def bsig0 (x : Nat) : Nat := rotr 2 x ^^^ rotr 13 x ^^^ rotr 22 x
def bsig1 (x : Nat) : Nat := rotr 6 x ^^^ rotr 11 x ^^^ rotr 25 x
def ssig0 (x : Nat) : Nat := rotr 7 x ^^^ rotr 18 x ^^^ (x >>> 3)
def ssig1 (x : Nat) : Nat := rotr 17 x ^^^ rotr 19 x ^^^ (x >>> 10)
def chF (x y z : Nat) : Nat := (x &&& y) ^^^ ((x ^^^ 4294967295) &&& z)
def majF (x y z : Nat) : Nat := (x &&& y) ^^^ (x &&& z) ^^^ (y &&& z)

/-- The eight-word SHA-256 state. -/
structure H8 where
  h0 : Nat
  h1 : Nat
  h2 : Nat
  h3 : Nat
  h4 : Nat
  h5 : Nat
  h6 : Nat
  h7 : Nat
deriving Repr, DecidableEq

/-- The FIPS 180-4 initial hash words, written in decimal. -/
def initH : H8 :=
  ⟨1779033703, 3144134277, 1013904242, 2773480762,
   1359893119, 2600822924, 528734635, 1541459225⟩

/-- The 64 FIPS 180-4 round constants, written in decimal. -/
def K64 : List Nat :=
  [1116352408, 1899447441, 3049323471, 3921009573,
   961987163, 1508970993, 2453635748, 2870763221,
   3624381080, 310598401, 607225278, 1426881987,
   1925078388, 2162078206, 2614888103, 3248222580,
   3835390401, 4022224774, 264347078, 604807628,
   770255983, 1249150122, 1555081692, 1996064986,
   2554220882, 2821834349, 2952996808, 3210313671,
   3336571891, 3584528711, 113926993, 338241895,
   666307205, 773529912, 1294757372, 1396182291,
   1695183700, 1986661051, 2177026350, 2456956037,
   2730485921, 2820302411, 3259730800, 3345764771,
   3516065817, 3600352804, 4094571909, 275423344,
   430227734, 506948616, 659060556, 883997877,
   958139571, 1322822218, 1537002063, 1747873779,
   1955562222, 2024104815, 2227730452, 2361852424,
   2428436474, 2756734187, 3204031479, 3329325298]

/-- Big-endian 8-byte encoding of a length in bits. -/
def be64 (n : Nat) : List Nat :=
  [n >>> 56 % 256, n >>> 48 % 256, n >>> 40 % 256, n >>> 32 % 256,
   n >>> 24 % 256, n >>> 16 % 256, n >>> 8 % 256, n % 256]

/-- SHA-256 padding: append 0x80, zero bytes, and the 64-bit bit length. -/
def padMsg (bytes : List Nat) : List Nat :=
  let len := bytes.length
  let zeros := (119 - len % 64) % 64
  bytes ++ [0x80] ++ List.replicate zeros 0 ++ be64 (len * 8)

/-- Packs bytes (big-endian) into 32-bit words. -/
def toWords : List Nat → List Nat
  | b0 :: b1 :: b2 :: b3 :: rest => (((b0 * 256 + b1) * 256 + b2) * 256 + b3) :: toWords rest
  | _ => []

/-- Splits a padded word stream into 16-word blocks. -/
def toBlocks : List Nat → List (List Nat)
  | w0 :: w1 :: w2 :: w3 :: w4 :: w5 :: w6 :: w7 ::
    w8 :: w9 :: w10 :: w11 :: w12 :: w13 :: w14 :: w15 :: rest =>
      [w0, w1, w2, w3, w4, w5, w6, w7, w8, w9, w10, w11, w12, w13, w14, w15] :: toBlocks rest
  | _ => []

/-- Message-schedule extension; `acc` holds the words seen so far, most
recent first, and `k` counts the remaining words to produce. -/
def extendW (acc : List Nat) : Nat → List Nat
  | 0 => acc
  | k + 1 =>
      let w := (ssig1 (acc.getD 1 0) + acc.getD 6 0 + ssig0 (acc.getD 14 0) + acc.getD 15 0) % mask32
      extendW (w :: acc) k

/-- The 64-word message schedule of one block. -/
def schedule (block : List Nat) : List Nat :=
  (extendW block.reverse 48).reverse

/-- One compression round. -/
def round1 (st : H8) (kw : Nat × Nat) : H8 :=
  let t1 := (st.h7 + bsig1 st.h4 + chF st.h4 st.h5 st.h6 + kw.1 + kw.2) % mask32
  let t2 := (bsig0 st.h0 + majF st.h0 st.h1 st.h2) % mask32
  ⟨(t1 + t2) % mask32, st.h0, st.h1, st.h2, (st.h3 + t1) % mask32, st.h4, st.h5, st.h6⟩

/-- Compresses one 16-word block into the running hash state. -/
def compress (h : H8) (block : List Nat) : H8 :=
  let s := (K64.zip (schedule block)).foldl round1 h
  ⟨(h.h0 + s.h0) % mask32, (h.h1 + s.h1) % mask32, (h.h2 + s.h2) % mask32,
   (h.h3 + s.h3) % mask32, (h.h4 + s.h4) % mask32, (h.h5 + s.h5) % mask32,
   (h.h6 + s.h6) % mask32, (h.h7 + s.h7) % mask32⟩

/-- SHA-256 digest (eight words) of a byte list. -/
def sha256 (bytes : List Nat) : H8 :=
  (toBlocks (toWords (padMsg bytes))).foldl compress initH

def hexDigit (n : Nat) : Char :=
  Char.ofNat (if n < 10 then 48 + n else 87 + n)

/-- Eight lowercase hex characters of one 32-bit word. -/
def wordHex (w : Nat) : String :=
  String.mk [hexDigit (w / 16 ^ 7 % 16), hexDigit (w / 16 ^ 6 % 16),
             hexDigit (w / 16 ^ 5 % 16), hexDigit (w / 16 ^ 4 % 16),
             hexDigit (w / 16 ^ 3 % 16), hexDigit (w / 16 ^ 2 % 16),
             hexDigit (w / 16 % 16), hexDigit (w % 16)]

/-- Hex rendering of the eight digest words. -/
def hexH8 (d : H8) : String :=
  wordHex d.h0 ++ wordHex d.h1 ++ wordHex d.h2 ++ wordHex d.h3 ++
  wordHex d.h4 ++ wordHex d.h5 ++ wordHex d.h6 ++ wordHex d.h7

/-- The 64-character hex digest of a string, modelling Go's
`fmt.Sprintf("%x", sha256.Sum256([]byte(r)))`. -/
def sha256hex (s : String) : String := hexH8 (sha256 (strBytes s))

theorem sha256hex_abc :
    sha256hex "abc" = "ba7816bf8f01cfea414140de5dae2223b00361a396177a9cb410ff61f20015ad" := by
  decide

/-! ## `translator.go`: `hashname`, `truncate`, `min`, `servicename` -/

/-- Embeds `min` from translator.go: `if a > b { return b }; return a`. -/
def gomin (a b : Nat) : Nat := if a > b then b else a

/-- Embeds `truncate` from translator.go: truncates `s` to length `l` by
replacing the end of `s` with `-suffix`. -/
def truncate (l : Nat) (s suffix : String) : String :=
  if l ≥ s.length then
    s
  else if l ≤ suffix.length then
    strTake suffix (gomin l suffix.length)
  else
    strTake s (l - suffix.length - 1) ++ "-" ++ suffix

/-- Embeds the loop of `hashname`: index `n` runs from `len s - 1` down to
`0` (the argument here is `n + 1`, with `0` meaning the loop is over),
truncating `s[n]` and returning the join as soon as it is short enough;
when the loop ends the digest truncated to `l` is returned. -/
def hashnameGo (l : Nat) (hash : String) : List String → Nat → String
  | _, 0 => strTake hash (gomin hash.length l)
  | s, n + 1 =>
      let s' := s.set n (truncate (l / s.length) (s.getD n "") (strTake hash 6))
      let r := String.intercalate "/" s'
      if l > r.length then r else hashnameGo l hash s' n

/-- Embeds `hashname` from translator.go: joins `s` with `"/"`; if the
join is under `l` it is returned unchanged, otherwise elements are
truncated from the end using the sha256 digest of the join, falling back
to the digest truncated to `l`. -/
def hashname (l : Nat) (s : List String) : String :=
  if l > (String.intercalate "/" s).length then String.intercalate "/" s
  else hashnameGo l (sha256hex (String.intercalate "/" s)) s s.length

/-- The metadata key of translator.go: `name` and `namespace`. -/
structure metadata where
  name : String
  ns : String
deriving Repr, DecidableEq

/-- Embeds `servicename` from translator.go: a fixed name for a service
and portname. -/
def servicename (meta : metadata) (portname : String) : String :=
  let sn := [meta.ns, meta.name, ""].take 2
  let sn := if portname ≠ "" then sn ++ [portname] else sn
  String.intercalate "/" sn

theorem servicename_named :
    servicename ⟨"kuard", "default"⟩ "http" = "default/kuard/http" := by decide

theorem servicename_unnamed :
    servicename ⟨"kuard", "default"⟩ "" = "default/kuard" := by decide

set_option maxRecDepth 4000 in
theorem hashname_long_vhost :
    hashname 60 ["my-very-very-long-service-host-name.subdomain.boring-dept.my.company"] =
      "d31bb322ca62bb395acad00b3cbf45a3aa1010ca28dca7cddb4f7db786fa" := by
  decide

theorem wordHex_length (w : Nat) : (wordHex w).length = 8 := rfl

theorem hexH8_length (d : H8) : (hexH8 d).length = 64 := by
  simp [hexH8, String.length_append, wordHex_length]

theorem sha256hex_length (s : String) : (sha256hex s).length = 64 :=
  hexH8_length _

theorem strTake_length (s : String) (n : Nat) :
    (strTake s n).length = min n s.length := by
  show (s.data.take n).length = min n s.data.length
  exact List.length_take n s.data

theorem hashnameGo_length_le (l : Nat) (hash : String) :
    ∀ (s : List String) (n : Nat), (hashnameGo l hash s n).length ≤ l := by
  intro s n
  induction n generalizing s with
  | zero =>
      simp only [hashnameGo, strTake_length, gomin]
      split <;> omega
  | succ n ih =>
      simp only [hashnameGo]
      split
      · omega
      · exact ih _

theorem hashname_length_le (l : Nat) (s : List String) :
    (hashname l s).length ≤ l := by
  unfold hashname
  split
  · omega
  · exact hashnameGo_length_le _ _ _ _

theorem hashname_short (l : Nat) (s : List String)
    (h : (String.intercalate "/" s).length < l) :
    hashname l s = String.intercalate "/" s := by
  unfold hashname
  rw [if_pos h]

/-- Modelled from the spec: the name of an emitted VirtualHost for host
`h` is `hashname 60 h` (§4.3 step 4); the repository's virtual-host test
expects exactly `hashname`'s output for a 69-character host. -/
def virtualhostName (host : String) : String := hashname 60 [host]

theorem truncate_long (l : Nat) (s suffix : String)
    (hs : l < s.length) (hsuf : suffix.length < l) :
    truncate l s suffix = strTake s (l - suffix.length - 1) ++ "-" ++ suffix ∧
    (truncate l s suffix).length = l := by
  have h1 : ¬ l ≥ s.length := by omega
  have h2 : ¬ l ≤ suffix.length := by omega
  have he : truncate l s suffix = strTake s (l - suffix.length - 1) ++ "-" ++ suffix := by
    unfold truncate
    rw [if_neg h1, if_neg h2]
  refine ⟨he, ?_⟩
  rw [he]
  have hdash : ("-" : String).length = 1 := rfl
  rw [String.length_append, String.length_append, strTake_length, hdash]
  omega

/-- Claim C2: for `L > 0` and non-empty `parts`, `hashname L parts`
returns the "/"-joined string unchanged when it fits strictly within `L`
characters (the source condition `l > len(r)`), and otherwise a string of
length at most `L`; a part truncated by the algorithm is cut to the
target length with a `-suffix` tail of exact total length; consequently
every emitted VirtualHost name has length at most 60. -/
theorem hashname_bounded_spec :
    (∀ (l : Nat) (parts : List String), 0 < l → parts ≠ [] →
        ((String.intercalate "/" parts).length < l →
            hashname l parts = String.intercalate "/" parts) ∧
        (hashname l parts).length ≤ l) ∧
    (∀ (l : Nat) (s suffix : String), l < s.length → suffix.length < l →
        truncate l s suffix = strTake s (l - suffix.length - 1) ++ "-" ++ suffix ∧
        (truncate l s suffix).length = l) ∧
    (∀ host : String, (virtualhostName host).length ≤ 60) := by
  refine ⟨fun l parts _ _ => ⟨hashname_short l parts, hashname_length_le l parts⟩,
          truncate_long, fun host => hashname_length_le 60 [host]⟩

/-- Witness for claim C2 at concrete inputs. -/
theorem hashname_bounded_spec_witness :
    hashname 10 ["ab", "cd"] = "ab/cd" ∧
    (hashname 4 ["abcdefgh"]).length ≤ 4 ∧
    (truncate 10 "abcdefghijklmnop" "abc").length = 10 ∧
    (virtualhostName "x").length ≤ 60 :=
  ⟨(hashname_bounded_spec.1 10 ["ab", "cd"] (by decide) (by decide)).1 (by decide),
   (hashname_bounded_spec.1 4 ["abcdefgh"] (by decide) (by decide)).2,
   (hashname_bounded_spec.2.1 10 "abcdefghijklmnop" "abc" (by decide) (by decide)).2,
   hashname_bounded_spec.2.2 "x"⟩

/-! ## Data model: the Kubernetes input objects used by the translator -/

/-- Kubernetes `intstr.IntOrString` (an Ingress backend service port). -/
inductive IntOrString where
  | int (n : Nat)
  | str (s : String)
deriving Repr, DecidableEq

/-- The string rendering used in cluster names (`FromInt 80` renders as
"80", `FromString "http"` as "http"). -/
def IntOrString.render : IntOrString → String
  | .int n => Nat.repr n
  | .str s => s

/-- A Service port: `name` is empty for an unnamed port. -/
structure ServicePort where
  name : String
  port : Nat
deriving Repr, DecidableEq

structure Service where
  meta : metadata
  ports : List ServicePort
deriving Repr, DecidableEq

structure IngressBackend where
  serviceName : String
  servicePort : IntOrString
deriving Repr, DecidableEq

structure HTTPIngressPath where
  path : String
  backend : IngressBackend
deriving Repr, DecidableEq

structure IngressTLS where
  hosts : List String
  secretName : String
deriving Repr, DecidableEq

structure IngressRule where
  host : String
  paths : List HTTPIngressPath
deriving Repr, DecidableEq

structure Ingress where
  meta : metadata
  anns : List (String × String)
  backend : Option IngressBackend
  tls : List IngressTLS
  rules : List IngressRule
deriving Repr, DecidableEq

/-- `ingressroutev1.Service`: a backend of an IngressRoute route. -/
structure IRService where
  name : String
  port : Nat
  weight : Option Nat
deriving Repr, DecidableEq

/-- `ingressroutev1.Route`: `mtch` is the `Match` path. -/
structure IRRoute where
  mtch : String
  services : List IRService
deriving Repr, DecidableEq

structure IngressRoute where
  meta : metadata
  anns : List (String × String)
  fqdn : String
  routes : List IRRoute
deriving Repr, DecidableEq

structure Secret where
  meta : metadata
  data : List (String × String)
deriving Repr, DecidableEq

/-! ## Maps and caches

Go maps and the name-keyed resource caches are modelled as association
lists; `upsert` is the cache `Add` (replace by name), `removeKey` the
cache `Remove` (silently tolerating unknown names). -/

def findVal {κ α : Type} [DecidableEq κ] (k : κ) : List (κ × α) → Option α
  | [] => none
  | (k', v) :: rest => if k' = k then some v else findVal k rest

def upsert {κ α : Type} [DecidableEq κ] (k : κ) (v : α) : List (κ × α) → List (κ × α)
  | [] => [(k, v)]
  | (k', v') :: rest => if k' = k then (k, v) :: rest else (k', v') :: upsert k v rest

def removeKey {κ α : Type} [DecidableEq κ] (k : κ) : List (κ × α) → List (κ × α)
  | [] => []
  | (k', v') :: rest => if k' = k then removeKey k rest else (k', v') :: removeKey k rest

theorem findVal_upsert_self {κ α : Type} [DecidableEq κ] (k : κ) (v : α)
    (l : List (κ × α)) : findVal k (upsert k v l) = some v := by
  induction l with
  | nil => simp [upsert, findVal]
  | cons p rest ih =>
      by_cases h : p.1 = k
      · simp [upsert, findVal, h]
      · simp [upsert, findVal, h, ih]

theorem findVal_upsert_ne {κ α : Type} [DecidableEq κ] (k k' : κ) (v : α)
    (l : List (κ × α)) (h : k' ≠ k) :
    findVal k (upsert k' v l) = findVal k l := by
  induction l with
  | nil => simp [upsert, findVal, h]
  | cons p rest ih =>
      by_cases hp : p.1 = k'
      · simp [upsert, findVal, hp, h]
      · simp only [upsert, if_neg hp]
        by_cases hk : p.1 = k
        · simp [findVal, hk]
        · simp [findVal, hk, ih]

theorem findVal_removeKey_self {κ α : Type} [DecidableEq κ] (k : κ)
    (l : List (κ × α)) : findVal k (removeKey k l) = none := by
  induction l with
  | nil => simp [removeKey, findVal]
  | cons p rest ih =>
      by_cases h : p.1 = k
      · simp [removeKey, h, ih]
      · simp [removeKey, findVal, h, ih]

theorem findVal_removeKey_ne {κ α : Type} [DecidableEq κ] (k k' : κ)
    (l : List (κ × α)) (h : k' ≠ k) :
    findVal k (removeKey k' l) = findVal k l := by
  induction l with
  | nil => simp [removeKey]
  | cons p rest ih =>
      by_cases hp : p.1 = k'
      · have hpk : ¬ p.1 = k := by rw [hp]; exact h
        simp only [removeKey, if_pos hp, findVal, if_neg hpk, ih]
      · by_cases hk : p.1 = k
        · simp only [removeKey, if_neg hp, findVal, if_pos hk]
        · simp only [removeKey, if_neg hp, findVal, if_neg hk, ih]

/-! ## Cluster cache recomputation -/

/-- An emitted CDS Cluster; only the fields the claims are about are
modelled (`Type`, `ConnectTimeout`, `LbPolicy` are constants in the
source, cf. `TestClusterCacheRecomputeService`). -/
structure Cluster where
  name : String
  edsServiceName : String
deriving Repr, DecidableEq

/-- Modelled from the spec: the body of `ClusterCache.recomputeService`
is not among the provided sources (only its test is).  Per §4.3 and
invariant 2, each named Service port emits two Clusters — one keyed by
numeric port and one by port name, both with endpoint-discovery name
`servicename meta portname` — and each unnamed port emits one Cluster
keyed by numeric port with endpoint-discovery name `servicename meta ""`,
as pinned by `TestClusterCacheRecomputeService`. -/
def clustersForPort (meta : metadata) (p : ServicePort) : List Cluster :=
  if p.name ≠ "" then
    [⟨servicename meta (Nat.repr p.port), servicename meta p.name⟩,
     ⟨servicename meta p.name, servicename meta p.name⟩]
  else
    [⟨servicename meta (Nat.repr p.port), servicename meta ""⟩]

/-- All Clusters emitted for one Service. -/
def clustersForService (svc : Service) : List Cluster :=
  svc.ports.flatMap (clustersForPort svc.meta)

/-- Modelled from the spec: `recomputeService` adds every Cluster of the
new Service version and removes the names emitted for the old version
that are no longer emitted. -/
def recomputeService (cc : List (String × Cluster))
    (oldObj newObj : Option Service) : List (String × Cluster) :=
  let adds := (newObj.map clustersForService).getD []
  let olds := (oldObj.map clustersForService).getD []
  let stale := (olds.map Cluster.name).filter (fun n => ¬ (adds.map Cluster.name).contains n)
  stale.foldl (fun c n => removeKey n c) (adds.foldl (fun c cl => upsert cl.name cl c) cc)

/-- Claim C1: for a Service with namespace `N` and name `M`, each named
port (numeric `P`, name `Q`) emits exactly the two Clusters "N/M/P" and
"N/M/Q", both with endpoint-discovery name "N/M/Q", and each unnamed
port exactly the one Cluster "N/M/P" with endpoint-discovery name
"N/M". -/
theorem servicename_eq_of_ne (N M pn : String) (hpn : pn ≠ "") :
    servicename ⟨M, N⟩ pn = N ++ "/" ++ M ++ "/" ++ pn := by
  show String.intercalate "/"
      (if pn ≠ "" then [N, M, ""].take 2 ++ [pn] else [N, M, ""].take 2) = _
  rw [if_pos hpn]
  rfl

theorem servicename_eq_of_empty (N M : String) :
    servicename ⟨M, N⟩ "" = N ++ "/" ++ M := by
  show String.intercalate "/"
      (if ("" : String) ≠ "" then [N, M, ""].take 2 ++ [""] else [N, M, ""].take 2) = _
  rw [if_neg (by simp)]
  rfl

theorem toDigitsCore_len_le (b : Nat) : ∀ (f n : Nat) (ds : List Char),
    ds.length ≤ (Nat.toDigitsCore b f n ds).length := by
  intro f
  induction f with
  | zero => intro n ds; simp [Nat.toDigitsCore]
  | succ f ih =>
      intro n ds
      simp only [Nat.toDigitsCore]
      split
      · simp
      · exact le_trans (by simp) (ih _ _)

theorem nat_repr_ne_empty (n : Nat) : Nat.repr n ≠ "" := by
  intro hcon
  have h1 : 1 ≤ (Nat.toDigitsCore 10 (n + 1) n []).length := by
    simp only [Nat.toDigitsCore]
    split
    · simp
    · exact le_trans (by simp) (toDigitsCore_len_le 10 _ _ _)
  have h2 : (Nat.repr n).length = 0 := by rw [hcon]; rfl
  have h3 : (Nat.repr n).length = (Nat.toDigitsCore 10 (n + 1) n []).length := rfl
  omega

theorem clustersForPort_names (N M : String) (p : ServicePort) :
    clustersForPort ⟨M, N⟩ p =
      if p.name ≠ "" then
        [⟨N ++ "/" ++ M ++ "/" ++ Nat.repr p.port, N ++ "/" ++ M ++ "/" ++ p.name⟩,
         ⟨N ++ "/" ++ M ++ "/" ++ p.name, N ++ "/" ++ M ++ "/" ++ p.name⟩]
      else
        [⟨N ++ "/" ++ M ++ "/" ++ Nat.repr p.port, N ++ "/" ++ M⟩] := by
  have hport := servicename_eq_of_ne N M (Nat.repr p.port) (nat_repr_ne_empty p.port)
  by_cases h : p.name = ""
  · simp [clustersForPort, h, servicename_eq_of_empty, hport]
  · simp [clustersForPort, h, hport, servicename_eq_of_ne N M p.name h]

/-- Claim C1: for a Service with namespace `N` and name `M`, each named
port (numeric `P`, name `Q`) emits exactly the two Clusters "N/M/P" and
"N/M/Q", both with endpoint-discovery name "N/M/Q", and each unnamed
port exactly the one Cluster "N/M/P" with endpoint-discovery name
"N/M". -/
theorem recomputeService_cluster_names (N M : String) (ports : List ServicePort) :
    clustersForService ⟨⟨M, N⟩, ports⟩ =
      ports.flatMap (fun p =>
        if p.name ≠ "" then
          [⟨N ++ "/" ++ M ++ "/" ++ Nat.repr p.port, N ++ "/" ++ M ++ "/" ++ p.name⟩,
           ⟨N ++ "/" ++ M ++ "/" ++ p.name, N ++ "/" ++ M ++ "/" ++ p.name⟩]
        else
          [⟨N ++ "/" ++ M ++ "/" ++ Nat.repr p.port, N ++ "/" ++ M⟩]) := by
  induction ports with
  | nil => rfl
  | cons p ps ih =>
      simp only [clustersForService, List.flatMap_cons] at ih ⊢
      rw [← clustersForPort_names N M p, ih]

/-! ## Route and VirtualHost entities -/

/-- A route match: `pfx` models `RouteMatch_Prefix`, `regex`
`RouteMatch_Regex`. -/
inductive RMatch where
  | pfx (s : String)
  | regex (s : String)
deriving Repr, DecidableEq

/-- Length of the matched path, used for route ordering. -/
def RMatch.len : RMatch → Nat
  | .pfx s => s.length
  | .regex s => s.length

/-- A route action: `cluster` models `RouteAction_Cluster` with the
optional timeout in nanoseconds, `weighted` models
`RouteAction_WeightedClusters` as (cluster name, weight) pairs, and
`redirect` the 301 HTTPS redirect. -/
inductive Action where
  | cluster (name : String) (timeout : Option Nat)
  | weighted (clusters : List (String × Nat))
  | redirect
deriving Repr, DecidableEq

/-- Whether an action is a plain route-to-cluster action. -/
def Action.isCluster : Action → Bool
  | .cluster _ _ => true
  | _ => false

structure Route where
  rmatch : RMatch
  action : Action
deriving Repr, DecidableEq

structure VirtualHost where
  name : String
  domains : List String
  routes : List Route
deriving Repr, DecidableEq

/-! ## Annotation handling -/

/-- Modelled from the spec: Go `time.ParseDuration` restricted to the
annotation values the spec names — one or more integer-and-unit groups
such as "600s" or "10m" (units ns, us, ms, s, m, h); a bare number such
as "600" has no unit and does not parse.  The result is in
nanoseconds. -/
def parseUnit : List Char → Option (Nat × List Char)
  | 'n' :: 's' :: rest => some (1, rest)
  | 'u' :: 's' :: rest => some (1000, rest)
  | 'm' :: 's' :: rest => some (1000000, rest)
  | 's' :: rest => some (1000000000, rest)
  | 'm' :: rest => some (60000000000, rest)
  | 'h' :: rest => some (3600000000000, rest)
  | _ => none

def parseDigits (cs : List Char) : Option (Nat × List Char) :=
  let ds := cs.takeWhile Char.isDigit
  if ds.isEmpty then none
  else some (ds.foldl (fun a c => a * 10 + (c.toNat - 48)) 0, cs.dropWhile Char.isDigit)

def parseGroups : Nat → List Char → Option Nat
  | 0, _ => none
  | fuel + 1, cs =>
      match parseDigits cs with
      | none => none
      | some (n, rest) =>
          match parseUnit rest with
          | none => none
          | some (scale, rest') =>
              match rest' with
              | [] => some (n * scale)
              | _ => (parseGroups fuel rest').map (n * scale + ·)

def parseDuration (s : String) : Option Nat :=
  parseGroups (s.length + 1) s.data

/-- Modelled from the spec: the `contour.heptio.com/request-timeout`
annotation yields no timeout when absent, an explicit zero timeout for
the literal "infinity" or any unparseable value, and the parsed duration
otherwise (§4.3, `TestRequestTimeout`). -/
def requestTimeout (anns : List (String × String)) : Option Nat :=
  match findVal "contour.heptio.com/request-timeout" anns with
  | none => none
  | some v => if v = "infinity" then some 0 else some ((parseDuration v).getD 0)

/-- Modelled from the spec: a path containing a regex metacharacter
becomes a regex match, otherwise a prefix match; the tests pin that '.'
is not a metacharacter ("/.well-known/…" stays a prefix match) while '*'
is ("/get.*" becomes a regex match). -/
def regexChars : List Char := ['^', '+', '*', '[', ']', '%']

def pathToRMatch (p : String) : RMatch :=
  if p.data.any (fun c => regexChars.contains c) then .regex p else .pfx p

/-! ## Ingress routes for one virtual host (modelled from the spec)

The body of `VirtualHostCache.recomputevhost` is not among the provided
sources (only `virtualhost_test.go` is); the definitions below follow
§4.3 of the spec and are pinned by the expectations of
`TestVirtualHostCacheRecomputevhost`. -/

/-- The cluster name of an Ingress backend: "{ns}/{service}/{port}". -/
def backendCluster (ns : String) (b : IngressBackend) : String :=
  servicename ⟨b.serviceName, ns⟩ b.servicePort.render

/-- The action of an Ingress route: route-to-cluster, carrying the
request-timeout annotation when present. -/
def ingressAction (i : Ingress) (b : IngressBackend) : Action :=
  .cluster (backendCluster i.meta.ns b) (requestTimeout i.anns)

/-- The HTTP-side action: a 301 redirect when the ingress carries
`ingress.kubernetes.io/force-ssl-redirect: "true"`. -/
def httpActionFor (i : Ingress) (b : IngressBackend) : Action :=
  if findVal "ingress.kubernetes.io/force-ssl-redirect" i.anns = some "true" then .redirect
  else ingressAction i b

/-- The host a rule contributes to: "*" when unspecified. -/
def ruleHost (r : IngressRule) : String := if r.host = "" then "*" else r.host

/-- An empty rule path matches everything. -/
def pathOrSlash (p : String) : String := if p = "" then "/" else p

/-- The HTTP routes one Ingress contributes to `vhost` (default backend
on "*", plus the paths of every rule for this host). -/
def httpRoutesOfIngress (vhost : String) (i : Ingress) : List Route :=
  (if vhost = "*" then
    match i.backend with
    | some b => [⟨.pfx "/", httpActionFor i b⟩]
    | none => []
   else []) ++
  i.rules.flatMap (fun r =>
    if ruleHost r = vhost then
      r.paths.map (fun p => ⟨pathToRMatch (pathOrSlash p.path), httpActionFor i p.backend⟩)
    else [])

/-- The HTTPS-side routes never redirect. -/
def httpsRoutesOfIngress (vhost : String) (i : Ingress) : List Route :=
  (if vhost = "*" then
    match i.backend with
    | some b => [⟨.pfx "/", ingressAction i b⟩]
    | none => []
   else []) ++
  i.rules.flatMap (fun r =>
    if ruleHost r = vhost then
      r.paths.map (fun p => ⟨pathToRMatch (pathOrSlash p.path), ingressAction i p.backend⟩)
    else [])

/-- `kubernetes.io/ingress.allow-http: "false"` excludes an Ingress from
the HTTP route table. -/
def allowHTTP (i : Ingress) : Bool :=
  findVal "kubernetes.io/ingress.allow-http" i.anns ≠ some "false"

/-- Embeds `validTLSSpecforVhost` (its body is not among the provided
sources; it is pinned exactly by `TestValidTLSSpecforVhost`): an Ingress
admits `vhost` to the HTTPS table when some TLS spec names `vhost` among
its hosts and carries a secret name. -/
def validTLSSpecforVhost (vhost : String) (i : Ingress) : Bool :=
  i.tls.any (fun tls => tls.secretName ≠ "" && tls.hosts.contains vhost)

theorem validTLSSpecforVhost_default :
    validTLSSpecforVhost "*" ⟨⟨"", ""⟩, [], none, [], []⟩ = false := by decide

theorem validTLSSpecforVhost_enabled :
    validTLSSpecforVhost "httpbin.davecheney.com"
      ⟨⟨"", ""⟩, [], none, [⟨["httpbin.davecheney.com"], "httpbin"⟩], []⟩ = true := by decide

theorem validTLSSpecforVhost_wrong_host :
    validTLSSpecforVhost "httpbin.davecheney.com"
      ⟨⟨"", ""⟩, [], none, [⟨["www.davecheney.com"], "dubdubdub"⟩], []⟩ = false := by decide

theorem validTLSSpecforVhost_missing_secret :
    validTLSSpecforVhost "httpbin.davecheney.com"
      ⟨⟨"", ""⟩, [], none, [⟨["httpbin.davecheney.com"], ""⟩], []⟩ = false := by decide

/-! ## Route ordering (spec §4.3 step 3: longest match first, stable) -/

/-- The route order: longer match-prefix first. -/
def routeGE (a b : Route) : Prop := b.rmatch.len ≤ a.rmatch.len

instance : DecidableRel routeGE := fun _ _ => Nat.decLe _ _

instance : IsTotal Route routeGE := ⟨fun a b => le_total b.rmatch.len a.rmatch.len⟩

instance : IsTrans Route routeGE := ⟨fun _ _ _ hab hbc => le_trans hbc hab⟩

/-- Modelled from the spec: `sort.Stable(longestRouteFirst(...))` — a
stable sort by descending match length. -/
def sortRoutes (rs : List Route) : List Route := rs.insertionSort routeGE

/-- The HTTP routes of one virtual host. -/
def httpRoutes (vhost : String) (ings : List Ingress) : List Route :=
  sortRoutes (ings.flatMap (fun i => if allowHTTP i then httpRoutesOfIngress vhost i else []))

/-- The HTTPS routes of one virtual host: only Ingresses whose TLS spec
admits this host contribute. -/
def httpsRoutes (vhost : String) (ings : List Ingress) : List Route :=
  sortRoutes (ings.flatMap (fun i =>
    if validTLSSpecforVhost vhost i then httpsRoutesOfIngress vhost i else []))

/-- VirtualHost domains: "*" stays bare, otherwise host plus host:port. -/
def vhDomains (vhost : String) (port : Nat) : List String :=
  if vhost = "*" then ["*"] else [vhost, vhost ++ ":" ++ Nat.repr port]

/-- Modelled from the spec: one step of per-host VirtualHost
recomputation (§4.3) applied to the HTTP and HTTPS virtual-host caches —
an empty route list removes the entry, otherwise the entry is
replaced. -/
def recomputevhost (vhost : String) (ings : List Ingress)
    (http https : List (String × VirtualHost)) :
    List (String × VirtualHost) × List (String × VirtualHost) :=
  let name := virtualhostName vhost
  let hr := httpRoutes vhost ings
  let sr := httpsRoutes vhost ings
  (if hr.isEmpty then removeKey name http else upsert name ⟨name, vhDomains vhost 80, hr⟩ http,
   if sr.isEmpty then removeKey name https else upsert name ⟨name, vhDomains vhost 443, sr⟩ https)

/-! ## IngressRoute: weighted clusters (modelled from the spec)

The body of `recomputevhostIngressRoute` is not among the provided
sources; the definitions follow §4.3 of the spec and are pinned by
`TestVirtualHostCacheRecomputevhostIngressRoute` (in particular, every
IngressRoute action is a weighted-cluster action, a single unweighted
backend receiving weight 100). -/

/-- Distributes `share` to each unspecified backend, handing one extra
unit to each of the earliest `extra` unspecified backends; specified
weights pass through verbatim. -/
def assignShares (share : Nat) : Nat → List (Option Nat) → List Nat
  | _, [] => []
  | extra, some w :: rest => w :: assignShares share extra rest
  | 0, none :: rest => share :: assignShares share 0 rest
  | extra + 1, none :: rest => (share + 1) :: assignShares share extra rest

/-- The emitted weights for a route's backends: all-specified weights
pass through verbatim; otherwise the unspecified backends share
`100 - (sum of specified)` evenly, remainder to the earliest. -/
def routeWeights (ws : List (Option Nat)) : List Nat :=
  if ws.countP (fun o => o.isNone) = 0 then
    ws.map (fun o => o.getD 0)
  else
    assignShares ((100 - (ws.filterMap id).sum) / ws.countP (fun o => o.isNone))
      ((100 - (ws.filterMap id).sum) % ws.countP (fun o => o.isNone)) ws

/-- The cluster name of an IngressRoute backend service. -/
def irClusterName (ns : String) (s : IRService) : String :=
  servicename ⟨s.name, ns⟩ (Nat.repr s.port)

/-- The action of an IngressRoute route: always a weighted-cluster
action over all its backend services. -/
def irAction (ns : String) (svcs : List IRService) : Action :=
  .weighted ((svcs.map (irClusterName ns)).zip (routeWeights (svcs.map IRService.weight)))

/-- The host an IngressRoute contributes to: "*" for an empty FQDN. -/
def irHost (r : IngressRoute) : String := if r.fqdn = "" then "*" else r.fqdn

/-- The routes one IngressRoute contributes to `vhost`. -/
def irRoutesOf (vhost : String) (r : IngressRoute) : List Route :=
  if irHost r = vhost then
    r.routes.map (fun rt => ⟨pathToRMatch (pathOrSlash rt.mtch), irAction r.meta.ns rt.services⟩)
  else []

/-- The HTTP routes of one virtual host built from IngressRoutes. -/
def irRoutes (vhost : String) (rs : List IngressRoute) : List Route :=
  sortRoutes (rs.flatMap (irRoutesOf vhost))

/-- Modelled from the spec: per-host recomputation for IngressRoutes
updates only the HTTP virtual-host cache (IngressRoute TLS admission is
only partially implemented in this revision; the tests expect an empty
HTTPS table). -/
def recomputevhostIngressRoute (vhost : String) (rs : List IngressRoute)
    (http : List (String × VirtualHost)) : List (String × VirtualHost) :=
  let name := virtualhostName vhost
  let hr := irRoutes vhost rs
  if hr.isEmpty then removeKey name http
  else upsert name ⟨name, vhDomains vhost 80, hr⟩ http

/-! ## Route-ordering lemmas -/

theorem filter_orderedInsert_self (a : Route) (l : List Route) :
    (List.orderedInsert routeGE a l).filter (fun x => x.rmatch.len == a.rmatch.len) =
      a :: l.filter (fun x => x.rmatch.len == a.rmatch.len) := by
  induction l with
  | nil => simp
  | cons b l ih =>
      by_cases h : routeGE a b
      · simp [List.orderedInsert, h]
      · have hb : ¬ b.rmatch.len = a.rmatch.len := by
          have : a.rmatch.len < b.rmatch.len := Nat.lt_of_not_le h
          omega
        simp [List.orderedInsert, h, List.filter_cons, hb, ih]

theorem filter_orderedInsert_ne (a : Route) (k : Nat) (hk : a.rmatch.len ≠ k)
    (l : List Route) :
    (List.orderedInsert routeGE a l).filter (fun x => x.rmatch.len == k) =
      l.filter (fun x => x.rmatch.len == k) := by
  induction l with
  | nil => simp [hk]
  | cons b l ih =>
      by_cases h : routeGE a b
      · simp [List.orderedInsert, h, List.filter_cons, hk]
      · simp [List.orderedInsert, h, List.filter_cons, ih]

theorem sortRoutes_stable (l : List Route) (k : Nat) :
    (sortRoutes l).filter (fun x => x.rmatch.len == k) =
      l.filter (fun x => x.rmatch.len == k) := by
  induction l with
  | nil => rfl
  | cons a l ih =>
      show (List.orderedInsert routeGE a (sortRoutes l)).filter _ = _
      by_cases hk : a.rmatch.len = k
      · subst hk
        rw [filter_orderedInsert_self, ih]
        simp [List.filter_cons]
      · rw [filter_orderedInsert_ne a k hk, ih]
        simp [List.filter_cons, hk]

theorem sortRoutes_sorted (l : List Route) : List.Sorted routeGE (sortRoutes l) :=
  List.sorted_insertionSort routeGE l

theorem sortRoutes_chain (l : List Route) :
    List.Chain' (fun a b => b.rmatch.len ≤ a.rmatch.len) (sortRoutes l) :=
  (sortRoutes_sorted l).chain'

/-- Claim C3: within every recomputed VirtualHost, the emitted route
list is ordered by match length descending — every adjacent pair
satisfies `len (r i) ≥ len (r (i+1))` — and routes whose matches have
equal length keep their stable input order. -/
theorem recomputevhost_route_order :
    (∀ (vhost : String) (ings : List Ingress),
        List.Chain' (fun a b => b.rmatch.len ≤ a.rmatch.len) (httpRoutes vhost ings) ∧
        List.Chain' (fun a b => b.rmatch.len ≤ a.rmatch.len) (httpsRoutes vhost ings)) ∧
    (∀ (vhost : String) (rs : List IngressRoute),
        List.Chain' (fun a b => b.rmatch.len ≤ a.rmatch.len) (irRoutes vhost rs)) ∧
    (∀ (l : List Route) (k : Nat),
        (sortRoutes l).filter (fun x => x.rmatch.len == k) =
          l.filter (fun x => x.rmatch.len == k)) :=
  ⟨fun _ _ => ⟨sortRoutes_chain _, sortRoutes_chain _⟩,
   fun _ _ => sortRoutes_chain _,
   sortRoutes_stable⟩

/-! ## Weighted-cluster weights -/

theorem assignShares_sum_none (share : Nat) :
    ∀ (l : List (Option Nat)) (extra : Nat), (∀ o ∈ l, o = none) →
      extra ≤ l.length → (assignShares share extra l).sum = share * l.length + extra := by
  intro l
  induction l with
  | nil =>
      intro extra _ hle
      have : extra = 0 := by simpa using hle
      simp [assignShares, this]
  | cons o rest ih =>
      intro extra h hle
      have ho : o = none := h o (List.mem_cons_self o rest)
      subst ho
      cases extra with
      | zero =>
          have := ih 0 (fun x hx => h x (List.mem_cons_of_mem _ hx)) (Nat.zero_le _)
          simp only [assignShares, List.sum_cons, this, List.length_cons]
          ring
      | succ e =>
          have hle' : e ≤ rest.length := by simpa using hle
          have := ih e (fun x hx => h x (List.mem_cons_of_mem _ hx)) hle'
          simp only [assignShares, List.sum_cons, this, List.length_cons]
          ring

/-- Claim C4: the emitted weighted-cluster weights pass specified
weights through verbatim when all backends carry one; with none
specified, 100 is split evenly (remainder to the earliest backends), so
the total is exactly 100; the spec's worked examples hold. -/
theorem ingressroute_weights_spec :
    (∀ ws : List (Option Nat), (∀ o ∈ ws, o.isSome) →
        routeWeights ws = ws.map (fun o => o.getD 0)) ∧
    (∀ ws : List (Option Nat), ws ≠ [] → (∀ o ∈ ws, o = none) →
        (routeWeights ws).sum = 100) ∧
    routeWeights [some 33, some 2, none] = [33, 2, 65] ∧
    routeWeights [none, none] = [50, 50] ∧
    routeWeights [some 33, none] = [33, 67] := by
  refine ⟨?_, ?_, by decide, by decide, by decide⟩
  · intro ws h
    have hz : ws.countP (fun o => o.isNone) = 0 := by
      rw [List.countP_eq_zero]
      intro o ho
      have := h o ho
      simp [Option.isSome_iff_exists] at this
      obtain ⟨v, rfl⟩ := this
      simp
    simp [routeWeights, hz]
  · intro ws hne h
    have hcnt : ws.countP (fun o => o.isNone) = ws.length := by
      rw [List.countP_eq_length]
      intro o ho
      rw [h o ho]
      rfl
    have hlen : 0 < ws.length := List.length_pos.mpr hne
    have hspec : (ws.filterMap id).sum = 0 := by
      have : ws.filterMap id = [] := by
        rw [List.filterMap_eq_nil_iff]
        intro o ho
        rw [h o ho]
        rfl
      rw [this]
      rfl
    have hcne : ¬ ws.countP (fun o => o.isNone) = 0 := by omega
    have hmod : 100 % ws.length < ws.length := Nat.mod_lt _ hlen
    rw [routeWeights, if_neg hcne, hcnt, hspec, Nat.sub_zero,
      assignShares_sum_none _ _ _ h (le_of_lt hmod), Nat.mul_comm]
    exact Nat.div_add_mod 100 ws.length

/-- Witness for claim C4 at concrete inputs. -/
theorem ingressroute_weights_spec_witness :
    routeWeights [some 40, some 60] = [40, 60] ∧
    (routeWeights [none, none, none]).sum = 100 :=
  ⟨ingressroute_weights_spec.1 [some 40, some 60] (by decide),
   ingressroute_weights_spec.2.1 [none, none, none] (by decide) (by decide)⟩

/-! ## Request-timeout semantics (claim C7) -/

/-- Claim C7: the emitted route action's timeout equals the parsed
duration for a valid duration annotation ("600s" is 600 seconds), is an
explicit zero for the literal "infinity" or any unparseable value
(such as "600"), and is left unset when the annotation is absent. -/
theorem request_timeout_spec :
    (∀ (i : Ingress) (b : IngressBackend),
        findVal "contour.heptio.com/request-timeout" i.anns = none →
        ingressAction i b = .cluster (backendCluster i.meta.ns b) none) ∧
    (∀ (i : Ingress) (b : IngressBackend) (v : String) (d : Nat),
        findVal "contour.heptio.com/request-timeout" i.anns = some v →
        v ≠ "infinity" → parseDuration v = some d →
        ingressAction i b = .cluster (backendCluster i.meta.ns b) (some d)) ∧
    (∀ (i : Ingress) (b : IngressBackend) (v : String),
        findVal "contour.heptio.com/request-timeout" i.anns = some v →
        v ≠ "infinity" → parseDuration v = none →
        ingressAction i b = .cluster (backendCluster i.meta.ns b) (some 0)) ∧
    requestTimeout [("contour.heptio.com/request-timeout", "600s")] = some 600000000000 ∧
    requestTimeout [("contour.heptio.com/request-timeout", "600")] = some 0 ∧
    requestTimeout [("contour.heptio.com/request-timeout", "infinity")] = some 0 ∧
    requestTimeout [] = none := by
  refine ⟨?_, ?_, ?_, by decide, by decide, by decide, by decide⟩
  · intro i b hfind
    simp [ingressAction, requestTimeout, hfind]
  · intro i b v d hfind hinf hdur
    simp [ingressAction, requestTimeout, hfind, hinf, hdur]
  · intro i b v hfind hinf hdur
    simp [ingressAction, requestTimeout, hfind, hinf, hdur]

/-- Witness for claim C7 at concrete inputs. -/
theorem request_timeout_spec_witness :
    ingressAction ⟨⟨"hello", "default"⟩, [], none, [], []⟩ ⟨"backend", .int 80⟩ =
      .cluster "default/backend/80" none ∧
    ingressAction ⟨⟨"hello", "default"⟩,
        [("contour.heptio.com/request-timeout", "600s")], none, [], []⟩
        ⟨"backend", .int 80⟩ =
      .cluster "default/backend/80" (some 600000000000) ∧
    ingressAction ⟨⟨"hello", "default"⟩,
        [("contour.heptio.com/request-timeout", "600")], none, [], []⟩
        ⟨"backend", .int 80⟩ =
      .cluster "default/backend/80" (some 0) :=
  ⟨request_timeout_spec.1 _ _ (by decide),
   request_timeout_spec.2.1 _ _ "600s" 600000000000 (by decide) (by decide) (by decide),
   request_timeout_spec.2.2.1 _ _ "600" (by decide) (by decide) (by decide)⟩

/-! ## Single-backend IngressRoute actions (claim C9) -/

/-- Counterexample for claim C9: an IngressRoute route with exactly one
backend service — the input of the test case "ingress route default
backend" — is emitted as a weighted-cluster action with weight 100, not
as a plain route-to-cluster action. -/
theorem ir_single_backend_weighted :
    irAction "default" [⟨"backend", 80, none⟩] =
      .weighted [("default/backend/80", 100)] ∧
    (irAction "default" [⟨"backend", 80, none⟩]).isCluster = false := by
  decide

/-- Amended claim C9: an IngressRoute route with exactly one backend
service without an explicit weight is emitted as a weighted-cluster
action whose single cluster names that backend and carries weight
100. -/
theorem ir_single_backend_action (ns nm : String) (port : Nat) :
    irAction ns [⟨nm, port, none⟩] =
      .weighted [(ns ++ "/" ++ nm ++ "/" ++ Nat.repr port, 100)] := by
  show Action.weighted ([irClusterName ns ⟨nm, port, none⟩].zip (routeWeights [none])) = _
  rw [show irClusterName ns ⟨nm, port, none⟩ = ns ++ "/" ++ nm ++ "/" ++ Nat.repr port from
    servicename_eq_of_ne ns nm (Nat.repr port) (nat_repr_ne_empty port)]
  rfl

/-! ## HTTPS virtual-host admission (claim C5) -/

/-- Counterexample for claim C5: the input of the virtual-host test case
"tls" — one Ingress whose TLS spec names the host — produces an HTTPS
VirtualHost although no Secret exists anywhere (the virtual-host
recomputation consults no Secret at all), contradicting the claim that
an existing Secret with certificate and private-key entries is
required. -/
theorem https_vhost_without_secret :
    (recomputevhost "httpbin.org"
        [⟨⟨"httpbin", "default"⟩, [], none, [⟨["httpbin.org"], "secret"⟩],
          [⟨"httpbin.org", [⟨"", ⟨"httpbin-org", .int 80⟩⟩]⟩]⟩] [] []).2 =
      [("httpbin.org", ⟨"httpbin.org", ["httpbin.org", "httpbin.org:443"],
        [⟨.pfx "/", .cluster "default/httpbin-org/80" none⟩]⟩)] := by
  decide

theorem sortRoutes_eq_nil (l : List Route) : sortRoutes l = [] ↔ l = [] := by
  constructor
  · intro h
    have hperm : List.Perm (sortRoutes l) l := List.perm_insertionSort routeGE l
    rw [h] at hperm
    exact (List.Perm.eq_nil hperm.symm)
  · intro h
    rw [h]
    rfl

/-- Amended claim C5: the recomputed VirtualHost is present in the HTTPS
route table exactly when some contributing Ingress both passes
`validTLSSpecforVhost` (a TLS spec naming this host with a nonempty
secret name) and contributes at least one route; Secret existence and
contents are not consulted during virtual-host recomputation. -/
theorem https_vhost_admission (vhost : String) (ings : List Ingress)
    (http https : List (String × VirtualHost)) :
    (findVal (virtualhostName vhost) (recomputevhost vhost ings http https).2 =
      if httpsRoutes vhost ings = [] then none
      else some ⟨virtualhostName vhost, vhDomains vhost 443, httpsRoutes vhost ings⟩) ∧
    (httpsRoutes vhost ings ≠ [] ↔
      ∃ i ∈ ings, validTLSSpecforVhost vhost i = true ∧
        httpsRoutesOfIngress vhost i ≠ []) := by
  constructor
  · show (findVal (virtualhostName vhost)
        (if (httpsRoutes vhost ings).isEmpty then removeKey (virtualhostName vhost) https
         else upsert (virtualhostName vhost)
           ⟨virtualhostName vhost, vhDomains vhost 443, httpsRoutes vhost ings⟩ https)) = _
    by_cases h : httpsRoutes vhost ings = []
    · rw [if_pos h, if_pos (by rw [h]; rfl)]
      exact findVal_removeKey_self _ _
    · rw [if_neg h, if_neg (by simpa [List.isEmpty_iff] using h)]
      exact findVal_upsert_self _ _ _
  · rw [show httpsRoutes vhost ings =
        sortRoutes (ings.flatMap (fun i =>
          if validTLSSpecforVhost vhost i then httpsRoutesOfIngress vhost i else [])) from rfl]
    rw [ne_eq, sortRoutes_eq_nil, List.flatMap_eq_nil_iff]
    constructor
    · intro h
      push_neg at h
      obtain ⟨i, hi, hne⟩ := h
      by_cases hv : validTLSSpecforVhost vhost i
      · exact ⟨i, hi, hv, by simpa [hv] using hne⟩
      · exact absurd (by simp [hv]) hne
    · intro ⟨i, hi, hv, hne⟩ hall
      exact hne (by simpa [hv] using hall i hi)

/-! ## Listeners (`listener.go`)

The listener address/port/access-log configuration and the constant HTTP
connection-manager filter are not modelled (they are fixed values
independent of the claims); a filter chain records the SNI hosts, the
inline TLS material, and the proxy-protocol flag. -/

def ENVOY_HTTP_LISTENER : String := "ingress_http"
def ENVOY_HTTPS_LISTENER : String := "ingress_https"

inductive TlsProto where
  | v1_1
  | v1_2
  | v1_3
deriving Repr, DecidableEq

/-- Embeds the `tlsMinProtoVer` switch of `recomputeTLSListener0`: any
value other than "1.3" or "1.2" is interpreted as TLS/1.1. -/
def tlsMinProtoVer (i : Ingress) : TlsProto :=
  match findVal "contour.heptio.com/tls-minimum-protocol-version" i.anns with
  | some "1.3" => .v1_3
  | some "1.2" => .v1_2
  | _ => .v1_1

structure FilterChain where
  sniHosts : List String
  tls : Option (String × String × TlsProto)
  useProxyProto : Bool
deriving Repr, DecidableEq

structure Listener where
  name : String
  filterChains : List FilterChain
deriving Repr, DecidableEq

/-- The single non-TLS filter chain of the ingress_http listener. -/
def httpChain (useProxyProto : Bool) : FilterChain := ⟨[], none, useProxyProto⟩

/-- Embeds `validTLSIngress` from listener.go: an ingress with no TLS
spec is skipped. -/
def validTLSIngress (i : Ingress) : Bool := ¬ i.tls.isEmpty

/-- The filter chain produced for one (ingress, tls-spec) pair, `none`
when the named Secret is missing from the ingress's namespace or lacks
the "tls.crt" or "tls.key" entry — the skip conditions of
`recomputeTLSListener0`. -/
def chainFor (useProxyProto : Bool) (secrets : List (metadata × Secret))
    (i : Ingress) (tls : IngressTLS) : Option FilterChain :=
  match findVal ⟨tls.secretName, i.meta.ns⟩ secrets with
  | none => none
  | some secret =>
      match findVal "tls.crt" secret.data, findVal "tls.key" secret.data with
      | some cert, some key => some ⟨tls.hosts, some (cert, key, tlsMinProtoVer i), useProxyProto⟩
      | _, _ => none

/-- The filter chains of the ingress_https listener, one per
(ingress, tls-spec) pair whose Secret is present and complete. -/
def validChains (useProxyProto : Bool) (secrets : List (metadata × Secret))
    (ingresses : List Ingress) : List FilterChain :=
  ingresses.flatMap (fun i => i.tls.filterMap (chainFor useProxyProto secrets i))

/-- Appends a produced filter chain to the accumulated list, modelling
`l.FilterChains = append(l.FilterChains, fc)` with the `continue` skips
of the source loop. -/
def addChain (acc : List FilterChain) : Option FilterChain → List FilterChain
  | none => acc
  | some fc => acc ++ [fc]

/-- Embeds `recomputeTLSListener0` from listener.go: the accumulating
loop over ingresses and their TLS specs, skipping non-TLS ingresses,
missing Secrets and incomplete Secrets; an empty chain list removes the
listener, otherwise the listener is refreshed. -/
def recomputeTLSListener0 (useProxyProto : Bool) (ingresses : List Ingress)
    (secrets : List (metadata × Secret)) : List Listener × List String :=
  match ingresses.foldl (fun acc i =>
    if ¬ validTLSIngress i then acc
    else i.tls.foldl (fun acc tls => addChain acc (chainFor useProxyProto secrets i tls)) acc)
    [] with
  | [] => ([], [ENVOY_HTTPS_LISTENER])
  | chains => ([⟨ENVOY_HTTPS_LISTENER, chains⟩], [])

/-- Cache `Add`: replace each listener by name. -/
def cacheAdd (c : List (String × Listener)) (ls : List Listener) : List (String × Listener) :=
  ls.foldl (fun c l => upsert l.name l c) c

/-- Cache `Remove`: delete each name, tolerating unknown names. -/
def cacheRemove (c : List (String × Listener)) (names : List String) : List (String × Listener) :=
  names.foldl (fun c n => removeKey n c) c

def applyListeners (c : List (String × Listener)) (ar : List Listener × List String) :
    List (String × Listener) :=
  cacheRemove (cacheAdd c ar.1) ar.2

/-- Embeds `recomputeTLSListener` from listener.go: apply the adds and
removes of `recomputeTLSListener0` to the listener cache. -/
def recomputeTLSListener (useProxyProto : Bool) (ingresses : List Ingress)
    (secrets : List (metadata × Secret)) (lc : List (String × Listener)) :
    List (String × Listener) :=
  applyListeners lc (recomputeTLSListener0 useProxyProto ingresses secrets)

theorem addChain_foldl {α : Type} (g : α → Option FilterChain) :
    ∀ (l : List α) (acc : List FilterChain),
      l.foldl (fun acc x => addChain acc (g x)) acc = acc ++ l.filterMap g := by
  intro l
  induction l with
  | nil => intro acc; simp
  | cons x rest ih =>
      intro acc
      cases hg : g x with
      | none =>
          simp only [List.foldl_cons, List.filterMap_cons, hg]
          rw [show addChain acc none = acc from rfl]
          exact ih acc
      | some c =>
          simp only [List.foldl_cons, List.filterMap_cons, hg]
          rw [show addChain acc (some c) = acc ++ [c] from rfl, ih]
          simp

theorem recomputeTLSListener0_chains (useProxyProto : Bool) (ingresses : List Ingress)
    (secrets : List (metadata × Secret)) :
    recomputeTLSListener0 useProxyProto ingresses secrets =
      match validChains useProxyProto secrets ingresses with
      | [] => ([], [ENVOY_HTTPS_LISTENER])
      | chains => ([⟨ENVOY_HTTPS_LISTENER, chains⟩], []) := by
  have hloop : ∀ (l : List Ingress) (acc : List FilterChain),
      l.foldl (fun acc i =>
        if ¬ validTLSIngress i then acc
        else i.tls.foldl (fun acc tls => addChain acc (chainFor useProxyProto secrets i tls)) acc)
        acc =
      acc ++ validChains useProxyProto secrets l := by
    intro l
    induction l with
    | nil => intro acc; simp [validChains]
    | cons i rest ih =>
        intro acc
        simp only [List.foldl_cons, validChains, List.flatMap_cons]
        by_cases hv : validTLSIngress i
        · rw [if_neg (by simp [hv]), addChain_foldl, ih]
          simp [validChains]
        · have htls : i.tls = [] := by
            simpa [validTLSIngress, List.isEmpty_iff] using hv
          rw [if_pos (by simp [hv]), ih]
          simp [validChains, htls]
  unfold recomputeTLSListener0
  rw [hloop ingresses [], List.nil_append]

/-- Claim C6: recomputing the ingress_https listener emits one filter
chain per (ingress, tls-spec) pair whose named Secret exists in the
ingress's namespace with both the "tls.crt" and "tls.key" entries
(`validChains`); a missing Secret or entry skips only that chain, the
recomputation never fails, and when no chain results the listener is
removed from the cache rather than stored empty. -/
theorem tls_listener_spec (useProxyProto : Bool) (ingresses : List Ingress)
    (secrets : List (metadata × Secret)) (lc : List (String × Listener)) :
    (recomputeTLSListener0 useProxyProto ingresses secrets =
      if validChains useProxyProto secrets ingresses = [] then ([], [ENVOY_HTTPS_LISTENER])
      else ([⟨ENVOY_HTTPS_LISTENER, validChains useProxyProto secrets ingresses⟩], [])) ∧
    (findVal ENVOY_HTTPS_LISTENER
        (recomputeTLSListener useProxyProto ingresses secrets lc) =
      if validChains useProxyProto secrets ingresses = [] then none
      else some ⟨ENVOY_HTTPS_LISTENER, validChains useProxyProto secrets ingresses⟩) := by
  have h0 := recomputeTLSListener0_chains useProxyProto ingresses secrets
  by_cases h : validChains useProxyProto secrets ingresses = []
  · rw [h] at h0
    refine ⟨by rw [h0, if_pos h], ?_⟩
    rw [if_pos h]
    show findVal ENVOY_HTTPS_LISTENER (applyListeners lc _) = none
    rw [h0]
    exact findVal_removeKey_self _ _
  · have h0' : recomputeTLSListener0 useProxyProto ingresses secrets =
        ([⟨ENVOY_HTTPS_LISTENER, validChains useProxyProto secrets ingresses⟩], []) := by
      rw [h0]
      cases hc : validChains useProxyProto secrets ingresses with
      | nil => exact absurd hc h
      | cons a l => rfl
    refine ⟨by rw [h0', if_neg h], ?_⟩
    rw [if_neg h]
    show findVal ENVOY_HTTPS_LISTENER (applyListeners lc _) = _
    rw [h0']
    exact findVal_upsert_self _ _ _

/-! ## Translator object cache and state (`translator.go`)

The translator cache body (`translatorCache`) is not among the provided
sources; modelled from spec §4.2, it stores the latest version of each
object keyed by (namespace, name), and the per-host indices
`vhosts`/`vhostroutes` are modelled as derived views with the same
contents. -/

structure TCache where
  ingresses : List (metadata × Ingress)
  routes : List (metadata × IngressRoute)
  secrets : List (metadata × Secret)
  services : List (metadata × Service)
deriving Repr, DecidableEq

/-- The hosts an Ingress contributes to: "*" for a default backend and
the (possibly defaulted) host of each rule. -/
def ingressHosts (i : Ingress) : List String :=
  (if i.backend.isSome then ["*"] else []) ++ i.rules.map ruleHost

/-- The derived `cache.vhosts[host]` view. -/
def vhostIngresses (c : TCache) (host : String) : List Ingress :=
  (c.ingresses.map Prod.snd).filter (fun i => (ingressHosts i).contains host)

/-- The derived `cache.vhostroutes[host]` view. -/
def vhostRoutes (c : TCache) (host : String) : List IngressRoute :=
  (c.routes.map Prod.snd).filter (fun r => irHost r == host)

def tcAddIngress (c : TCache) (i : Ingress) : TCache :=
  { c with ingresses := upsert i.meta i c.ingresses }

def tcRemoveIngress (c : TCache) (md : metadata) : TCache :=
  { c with ingresses := removeKey md c.ingresses }

def tcAddRoute (c : TCache) (r : IngressRoute) : TCache :=
  { c with routes := upsert r.meta r c.routes }

def tcRemoveRoute (c : TCache) (md : metadata) : TCache :=
  { c with routes := removeKey md c.routes }

def tcAddSecret (c : TCache) (s : Secret) : TCache :=
  { c with secrets := upsert s.meta s c.secrets }

def tcRemoveSecret (c : TCache) (md : metadata) : TCache :=
  { c with secrets := removeKey md c.secrets }

def tcAddService (c : TCache) (s : Service) : TCache :=
  { c with services := upsert s.meta s c.services }

/-- The whole translator: configuration, object cache, and the four
derived resource caches (the VirtualHost cache split into HTTP and
HTTPS). -/
structure TState where
  cfgClass : String
  useProxyProto : Bool
  tcache : TCache
  clusters : List (String × Cluster)
  listeners : List (String × Listener)
  vhHTTP : List (String × VirtualHost)
  vhHTTPS : List (String × VirtualHost)
deriving Repr, DecidableEq

def DEFAULT_INGRESS_CLASS : String := "contour"

/-- Embeds `Translator.ingressClass`. -/
def ingressClass (t : TState) : String :=
  if t.cfgClass ≠ "" then t.cfgClass else DEFAULT_INGRESS_CLASS

/-- Embeds the ingress-class guard of `addIngress`/`removeIngress`:
`class, ok := annotations[...]; if ok && class != ingressClass() {
return }`. -/
def classAllows (t : TState) (anns : List (String × String)) : Bool :=
  match findVal "kubernetes.io/ingress.class" anns with
  | some c => c == ingressClass t
  | none => true

/-- Embeds `recomputeListener0`: the ingress_http listener exists while
at least one ingress allows HTTP. -/
def recomputeListener0 (useProxyProto : Bool) (ingresses : List Ingress) :
    List Listener × List String :=
  if 0 < ingresses.countP allowHTTP then
    ([⟨ENVOY_HTTP_LISTENER, [httpChain useProxyProto]⟩], [])
  else
    ([], [ENVOY_HTTP_LISTENER])

/-- Embeds `recomputeListenerIngressRoute0`: the ingress_http listener
exists while any IngressRoute is present. -/
def recomputeListenerIngressRoute0 (useProxyProto : Bool) (routes : List IngressRoute) :
    List Listener × List String :=
  if 0 < routes.length then
    ([⟨ENVOY_HTTP_LISTENER, [httpChain useProxyProto]⟩], [])
  else
    ([], [ENVOY_HTTP_LISTENER])

/-- Embeds `recomputeListeners`: both the HTTP and the TLS listener are
recomputed, their adds applied before their removes. -/
def recomputeListeners (useProxyProto : Bool) (ingresses : List Ingress)
    (secrets : List (metadata × Secret)) (lc : List (String × Listener)) :
    List (String × Listener) :=
  let (a1, r1) := recomputeListener0 useProxyProto ingresses
  let (a2, r2) := recomputeTLSListener0 useProxyProto ingresses secrets
  cacheRemove (cacheAdd lc (a1 ++ a2)) (r1 ++ r2)

/-- Embeds `recomputeListenersIngressRoute`: only the HTTP listener is
recomputed — the TLS recomputation is commented out in the source. -/
def recomputeListenersIngressRoute (useProxyProto : Bool) (routes : List IngressRoute)
    (lc : List (String × Listener)) : List (String × Listener) :=
  applyListeners lc (recomputeListenerIngressRoute0 useProxyProto routes)

/-- One per-host VirtualHost recomputation applied to the state;
`vhost` is the name passed to `recomputevhost` and `idx` the host index
consulted (they differ in `removeIngress`, which passes the raw
`rule.Host`). -/
def recomputevhostSt (t : TState) (vhost idx : String) : TState :=
  let p := recomputevhost vhost (vhostIngresses t.tcache idx) t.vhHTTP t.vhHTTPS
  { t with vhHTTP := p.1, vhHTTPS := p.2 }

/-- `recomputevhost(vhost, nil)`, used by `removeIngress` for the
default-backend vhost. -/
def recomputevhostNil (t : TState) (vhost : String) : TState :=
  let p := recomputevhost vhost [] t.vhHTTP t.vhHTTPS
  { t with vhHTTP := p.1, vhHTTPS := p.2 }

/-- Embeds `Translator.addIngress` (after the cache update): the
ingress-class guard, the listener recomputation, the default-backend
vhost, then each rule's vhost. -/
def addIngressTr (t : TState) (i : Ingress) : TState :=
  if classAllows t i.anns then
    let ls := recomputeListeners t.useProxyProto (t.tcache.ingresses.map Prod.snd)
      t.tcache.secrets t.listeners
    let t1 := { t with listeners := ls }
    let t2 := if i.backend.isSome then recomputevhostSt t1 "*" "*" else t1
    i.rules.foldl (fun acc r => recomputevhostSt acc (ruleHost r) (ruleHost r)) t2
  else t

/-- Embeds `Translator.removeIngress` (after the cache update): the same
guard and listener recomputation; the default-backend vhost is
recomputed against `nil`, and each rule's vhost is recomputed with the
raw `rule.Host` as name. -/
def removeIngressTr (t : TState) (i : Ingress) : TState :=
  if classAllows t i.anns then
    let ls := recomputeListeners t.useProxyProto (t.tcache.ingresses.map Prod.snd)
      t.tcache.secrets t.listeners
    let t1 := { t with listeners := ls }
    let t2 := if i.backend.isSome then recomputevhostNil t1 "*" else t1
    i.rules.foldl (fun acc r => recomputevhostSt acc r.host (ruleHost r)) t2
  else t

/-- Embeds `Translator.OnAdd` for an Ingress: the object cache stores
the object first, then `addIngress` runs. -/
def onAddIngress (t : TState) (i : Ingress) : TState :=
  addIngressTr { t with tcache := tcAddIngress t.tcache i } i

/-- Embeds `Translator.OnUpdate` for an Ingress: the object cache stores
the new version, then `updateIngress` = `removeIngress old` followed by
`addIngress new`. -/
def onUpdateIngress (t : TState) (oldObj newObj : Ingress) : TState :=
  addIngressTr (removeIngressTr { t with tcache := tcAddIngress t.tcache newObj } oldObj) newObj

/-- Embeds `Translator.OnDelete` for an Ingress. -/
def onDeleteIngress (t : TState) (i : Ingress) : TState :=
  removeIngressTr { t with tcache := tcRemoveIngress t.tcache i.meta } i

/-- Embeds the identical bodies of `addIngressRoute` and
`removeIngressRoute` (after the cache update): recompute the HTTP
listener from the cached routes, then the FQDN's vhost. -/
def ingressRouteRecompute (t : TState) (r : IngressRoute) : TState :=
  let ls := recomputeListenersIngressRoute t.useProxyProto (t.tcache.routes.map Prod.snd)
    t.listeners
  let t1 := { t with listeners := ls }
  { t1 with vhHTTP := recomputevhostIngressRoute (irHost r) (vhostRoutes t1.tcache (irHost r)) t1.vhHTTP }

def onAddIngressRoute (t : TState) (r : IngressRoute) : TState :=
  ingressRouteRecompute { t with tcache := tcAddRoute t.tcache r } r

def onDeleteIngressRoute (t : TState) (r : IngressRoute) : TState :=
  ingressRouteRecompute { t with tcache := tcRemoveRoute t.tcache r.meta } r

def onUpdateIngressRoute (t : TState) (oldObj newObj : IngressRoute) : TState :=
  ingressRouteRecompute
    (ingressRouteRecompute { t with tcache := tcAddRoute t.tcache newObj } oldObj) newObj

/-- Embeds `Translator.addSecret`/`removeSecret` (after the cache
update): only the TLS listener is recomputed. -/
def onAddSecret (t : TState) (s : Secret) : TState :=
  let t1 := { t with tcache := tcAddSecret t.tcache s }
  let ls := recomputeTLSListener t1.useProxyProto (t1.tcache.ingresses.map Prod.snd)
    t1.tcache.secrets t1.listeners
  { t1 with listeners := ls }

def onDeleteSecret (t : TState) (s : Secret) : TState :=
  let t1 := { t with tcache := tcRemoveSecret t.tcache s.meta }
  let ls := recomputeTLSListener t1.useProxyProto (t1.tcache.ingresses.map Prod.snd)
    t1.tcache.secrets t1.listeners
  { t1 with listeners := ls }

/-- Embeds `Translator.addService`: the cluster cache is recomputed for
the service. -/
def onAddService (t : TState) (svc : Service) : TState :=
  { t with tcache := tcAddService t.tcache svc,
           clusters := recomputeService t.clusters none (some svc) }

/-! ## Claim C10: IngressRoute events never touch ingress_https -/

theorem recomputeListenersIngressRoute_preserves_https (useProxyProto : Bool)
    (routes : List IngressRoute) (lc : List (String × Listener)) :
    findVal ENVOY_HTTPS_LISTENER (recomputeListenersIngressRoute useProxyProto routes lc) =
      findVal ENVOY_HTTPS_LISTENER lc := by
  have hne : ENVOY_HTTP_LISTENER ≠ ENVOY_HTTPS_LISTENER := by decide
  unfold recomputeListenersIngressRoute recomputeListenerIngressRoute0 applyListeners
  split
  · show findVal ENVOY_HTTPS_LISTENER
        (upsert ENVOY_HTTP_LISTENER ⟨ENVOY_HTTP_LISTENER, [httpChain useProxyProto]⟩ lc) = _
    exact findVal_upsert_ne _ _ _ _ hne
  · show findVal ENVOY_HTTPS_LISTENER (removeKey ENVOY_HTTP_LISTENER lc) = _
    exact findVal_removeKey_ne _ _ _ hne

/-- Claim C10: an IngressRoute add, update, or delete event recomputes
only the ingress_http listener — the ingress_https entry of the listener
cache is never added, replaced, or removed by such an event, whatever
the IngressRoute or the cached secrets. -/
theorem ingressroute_events_preserve_https_listener (t : TState)
    (r oldObj newObj : IngressRoute) :
    findVal ENVOY_HTTPS_LISTENER (onAddIngressRoute t r).listeners =
      findVal ENVOY_HTTPS_LISTENER t.listeners ∧
    findVal ENVOY_HTTPS_LISTENER (onDeleteIngressRoute t r).listeners =
      findVal ENVOY_HTTPS_LISTENER t.listeners ∧
    findVal ENVOY_HTTPS_LISTENER (onUpdateIngressRoute t oldObj newObj).listeners =
      findVal ENVOY_HTTPS_LISTENER t.listeners := by
  have hstep : ∀ (t' : TState) (r' : IngressRoute),
      findVal ENVOY_HTTPS_LISTENER (ingressRouteRecompute t' r').listeners =
        findVal ENVOY_HTTPS_LISTENER t'.listeners := by
    intro t' r'
    exact recomputeListenersIngressRoute_preserves_https _ _ _
  refine ⟨hstep _ _, hstep _ _, ?_⟩
  rw [onUpdateIngressRoute, hstep, hstep]

/-! ## Claim C8: ingress-class filtering -/

theorem classAllows_of_mismatch (t : TState) (anns : List (String × String)) (c : String)
    (h : findVal "kubernetes.io/ingress.class" anns = some c) (hne : c ≠ ingressClass t) :
    classAllows t anns = false := by
  simp [classAllows, h, hne]

def emptyTState : TState := ⟨"", false, ⟨[], [], [], []⟩, [], [], [], []⟩

def exampleMismatchedIngress : Ingress :=
  ⟨⟨"incorrect", "default"⟩, [("kubernetes.io/ingress.class", "nginx")],
   some ⟨"kuard", .int 80⟩, [], []⟩

def exampleMismatchedRoute : IngressRoute :=
  ⟨⟨"route", "default"⟩, [("kubernetes.io/ingress.class", "nginx")], "",
   [⟨"/", [⟨"kuard", 80, none⟩]⟩]⟩

/-- Counterexample for claim C8 at concrete inputs: adding an Ingress
whose ingress-class is "nginx" to a translator configured with the
default class does change the translator's internal object cache (the
object is stored before the class guard runs), and adding an
IngressRoute carrying the same mismatched annotation changes the
listener cache — IngressRoute events are not class-filtered at all. -/
theorem ignored_class_still_contributes :
    (onAddIngress emptyTState exampleMismatchedIngress).tcache ≠ emptyTState.tcache ∧
    (onAddIngressRoute emptyTState exampleMismatchedRoute).listeners ≠
      emptyTState.listeners := by
  decide

theorem upsert_length_pos {κ α : Type} [DecidableEq κ] (k : κ) (v : α)
    (l : List (κ × α)) : 0 < (upsert k v l).length := by
  cases l with
  | nil => simp [upsert]
  | cons p rest =>
      by_cases h : p.1 = k <;> simp [upsert, h]

/-- Amended claim C8: for an Ingress whose ingress-class annotation is
set and differs from the configured class, OnAdd and OnDelete (and
OnUpdate when both versions carry a differing class) leave the cluster,
listener, and virtual-host caches unchanged, but the translator's
internal object cache still records the event — the object is stored on
add and dropped on delete.  IngressRoutes are not class-filtered: an
IngressRoute event with a mismatched class annotation still installs the
ingress_http listener. -/
theorem ignored_ingress_frame :
    (∀ (t : TState) (i : Ingress), classAllows t i.anns = false →
        (onAddIngress t i).clusters = t.clusters ∧
        (onAddIngress t i).listeners = t.listeners ∧
        (onAddIngress t i).vhHTTP = t.vhHTTP ∧
        (onAddIngress t i).vhHTTPS = t.vhHTTPS ∧
        findVal i.meta (onAddIngress t i).tcache.ingresses = some i) ∧
    (∀ (t : TState) (i : Ingress), classAllows t i.anns = false →
        (onDeleteIngress t i).clusters = t.clusters ∧
        (onDeleteIngress t i).listeners = t.listeners ∧
        (onDeleteIngress t i).vhHTTP = t.vhHTTP ∧
        (onDeleteIngress t i).vhHTTPS = t.vhHTTPS ∧
        findVal i.meta (onDeleteIngress t i).tcache.ingresses = none) ∧
    (∀ (t : TState) (oldObj newObj : Ingress),
        classAllows t oldObj.anns = false → classAllows t newObj.anns = false →
        (onUpdateIngress t oldObj newObj).clusters = t.clusters ∧
        (onUpdateIngress t oldObj newObj).listeners = t.listeners ∧
        (onUpdateIngress t oldObj newObj).vhHTTP = t.vhHTTP ∧
        (onUpdateIngress t oldObj newObj).vhHTTPS = t.vhHTTPS ∧
        findVal newObj.meta (onUpdateIngress t oldObj newObj).tcache.ingresses = some newObj) ∧
    (∀ (t : TState) (anns : List (String × String)) (c : String),
        findVal "kubernetes.io/ingress.class" anns = some c → c ≠ ingressClass t →
        classAllows t anns = false) ∧
    (∀ (t : TState) (r : IngressRoute),
        findVal ENVOY_HTTP_LISTENER (onAddIngressRoute t r).listeners =
          some ⟨ENVOY_HTTP_LISTENER, [httpChain t.useProxyProto]⟩) := by
  refine ⟨?_, ?_, ?_, classAllows_of_mismatch, ?_⟩
  · intro t i h
    have h' : classAllows { t with tcache := tcAddIngress t.tcache i } i.anns = false := h
    simp only [onAddIngress, addIngressTr, h', Bool.false_eq_true, if_false]
    exact ⟨trivial, trivial, trivial, trivial, findVal_upsert_self _ _ _⟩
  · intro t i h
    have h' : classAllows { t with tcache := tcRemoveIngress t.tcache i.meta } i.anns = false := h
    simp only [onDeleteIngress, removeIngressTr, h', Bool.false_eq_true, if_false]
    exact ⟨trivial, trivial, trivial, trivial, findVal_removeKey_self _ _⟩
  · intro t oldObj newObj ho hn
    have ho' : classAllows { t with tcache := tcAddIngress t.tcache newObj } oldObj.anns =
        false := ho
    have hn' : classAllows { t with tcache := tcAddIngress t.tcache newObj } newObj.anns =
        false := hn
    simp only [onUpdateIngress, removeIngressTr, addIngressTr, ho', hn',
      Bool.false_eq_true, if_false]
    exact ⟨trivial, trivial, trivial, trivial, findVal_upsert_self _ _ _⟩
  · intro t r
    show findVal ENVOY_HTTP_LISTENER
        (applyListeners _ (recomputeListenerIngressRoute0 t.useProxyProto
          ((upsert r.meta r t.tcache.routes).map Prod.snd))) = _
    rw [recomputeListenerIngressRoute0,
      if_pos (by simpa using upsert_length_pos r.meta r t.tcache.routes)]
    exact findVal_upsert_self _ _ _

/-- Witness for amended claim C8 at concrete inputs. -/
theorem ignored_ingress_frame_witness :
    (onAddIngress emptyTState exampleMismatchedIngress).clusters = emptyTState.clusters ∧
    (onAddIngress emptyTState exampleMismatchedIngress).listeners = emptyTState.listeners ∧
    (onAddIngress emptyTState exampleMismatchedIngress).vhHTTP = emptyTState.vhHTTP ∧
    (onAddIngress emptyTState exampleMismatchedIngress).vhHTTPS = emptyTState.vhHTTPS ∧
    findVal exampleMismatchedIngress.meta
      (onAddIngress emptyTState exampleMismatchedIngress).tcache.ingresses =
      some exampleMismatchedIngress :=
  ignored_ingress_frame.1 emptyTState exampleMismatchedIngress (by decide)

end contour
